import Mathlib

/-!
A shallow embedding of the phone-recommendation core of `app-2.py`
(the `recommend` endpoint and the catalog it reads), together with
theorems settling the specification claims about it.

Modelling conventions:
* Python numbers are rationals (`ℚ`); `float(x)` is `pyFloat`, which can fail
  exactly when CPython's `float` raises (`ValueError` on an unparsable string,
  `TypeError` on a non-string non-number).
* A phone record is a Python dict produced by the loader: `Category`, `Brand`,
  `Model` and `Total_Score` are always present (the loader drops rows with a
  missing `Category` and initialises `Total_Score := 0.0`); the four rating
  keys may be absent, which is why the code accesses them with `phone[...]`
  (possible `KeyError`) or `phone.get(key, 0)`.
* In-place mutation of the shared record dicts is modelled by returning the
  post-call catalog alongside the response (`recommendFull`); list elements of
  `filtered_phones` alias catalog entries, rendered by `patch`, which writes
  the updated candidate records back into their catalog positions.
* Raised exceptions are modelled with `Except`; the list comprehensions and
  loops of the source evaluate left to right and abort at the first raise,
  which the recursive definitions below reproduce, including the
  short-circuiting of Python's `all(...)`.
-/

deriving instance DecidableEq for Except

namespace PhoneFinder

/-- A Python value that can appear in a rating cell of a record dict:
a number, a string (carrying the outcome of `float` on it), or a
non-numeric non-string object such as `None`. -/
inductive Val where
  | num (q : ℚ)
  | str (s : String) (parsed : Option ℚ)
  | pynone
deriving DecidableEq, Inhabited

/-- The Python exceptions the scoring/format/fallback code can raise while
reading a rating: `ValueError`/`TypeError` from `float`, `KeyError` from
indexing a missing key. -/
inductive PyExc where
  | valueError (raw : String)
  | typeError
  | keyError (key : String)
deriving DecidableEq, Inhabited

/-- The request-level failures of `recommend`: the `HTTPException` raised at
line 126 for scoring failures (detail `Invalid data in phone entry: ...`) and
the catch-all handler at line 152 (detail `Recommendation failed: ...`). -/
inductive PyErr where
  | invalidData (e : PyExc)
  | recommendationFailed (e : PyExc)
deriving DecidableEq, Inhabited

/-- One record dict of `phone_data` as produced by the loader (lines 35-53):
`Category`, `Brand`, `Model` present (rows with missing `Category` are dropped
by `dropna`), `Total_Score` initialised, rating keys possibly absent. -/
structure Phone where
  brand : String
  model : String
  category : String
  brandRating : Option Val
  processorRating : Option Val
  batteryRating : Option Val
  cameraRating : Option Val
  totalScore : ℚ
deriving DecidableEq, Inhabited

/-- An entry of the request's priority list (class `Priority`). -/
structure Priority where
  feature : String
  rank : Int
deriving DecidableEq, Inhabited

/-- One formatted result record (lines 134-146). -/
structure FmtPhone where
  Brand : String
  Model : String
  Budget : String
  Brand_Rating : ℚ
  Processor_Rating : ℚ
  Battery_Rating : ℚ
  Camera_Rating : ℚ
  Total_Score : ℚ
deriving DecidableEq, Inhabited

/-- The response body of a successful `recommend` call (lines 148-151). -/
structure Resp where
  count : ℕ
  results : List FmtPhone
deriving DecidableEq, Inhabited

/-- The four rating columns. -/
inductive FeatKey where
  | brandK
  | procK
  | battK
  | camK
deriving DecidableEq, Inhabited, Fintype

/-- The dict key naming each rating column. -/
def keyName : FeatKey → String
  | .brandK => "Brand Rating (5)"
  | .procK => "Processor Rating (5)"
  | .battK => "Battery Rating (5)"
  | .camK => "Camera Rating (5)"

/-- Python `phone.get(key)` for the four rating keys. -/
def getRating (p : Phone) : FeatKey → Option Val
  | .brandK => p.brandRating
  | .procK => p.processorRating
  | .battK => p.batteryRating
  | .camK => p.cameraRating

/-- CPython `float(v)`: numbers coerce, numeric strings parse, other strings
raise `ValueError` (whose text carries the raw string), non-string non-number
objects raise `TypeError`. -/
def pyFloat : Val → Except PyExc ℚ
  | .num q => .ok q
  | .str _ (some q) => .ok q
  | .str s none => .error (.valueError s)
  | .pynone => .error .typeError

/-- Python `phone[keyName k]`: a missing key raises `KeyError`. -/
def getItem (p : Phone) (k : FeatKey) : Except PyExc Val :=
  match getRating p k with
  | some v => .ok v
  | none => .error (.keyError (keyName k))

/-- Python `float(phone[keyName k])`. -/
def pyFloatIdx (p : Phone) (k : FeatKey) : Except PyExc ℚ :=
  (getItem p k).bind pyFloat

/-- Python `s.strip()`: drop leading and trailing whitespace. -/
def strTrim (s : String) : String :=
  ⟨((s.data.dropWhile Char.isWhitespace).reverse.dropWhile Char.isWhitespace).reverse⟩

/-- Python `s.lower()`: lower-case every character. -/
def strLower (s : String) : String :=
  ⟨s.data.map Char.toLower⟩

/-- Python `s.strip().lower()`, the budget/category normalization. -/
def pyNorm (s : String) : String :=
  strLower (strTrim s)

/-- The primary filter predicate of lines 82-86: the `"Category" in phone` and
`isinstance` guards always hold for loader-produced records (the `Category`
column survives `dropna` as a string), leaving the normalized comparison. -/
def catMatchB (b : String) (p : Phone) : Bool :=
  pyNorm p.category == pyNorm b

/-- The key order in which line 98 iterates the rating columns. -/
def fbKeys : List FeatKey :=
  [.brandK, .procK, .battK, .camK]

/-- The generator consumed by `all(...)` at lines 96-99: checks
`3.5 <= float(phone.get(key, 0)) <= 4.5` key by key, short-circuiting at the
first out-of-range value, propagating the first raised conversion error. -/
def fallbackCheck (p : Phone) : List FeatKey → Except PyExc Bool
  | [] => .ok true
  | k :: ks =>
    match pyFloat ((getRating p k).getD (Val.num 0)) with
    | .error e => .error e
    | .ok q => if (3.5 : ℚ) ≤ q ∧ q ≤ (4.5 : ℚ) then fallbackCheck p ks else .ok false

/-- Python `all(3.5 <= float(phone.get(key, 0)) <= 4.5 for key in [...])`. -/
def fallbackOk (p : Phone) : Except PyExc Bool :=
  fallbackCheck p fbKeys

/-- The fallback list comprehension of lines 94-100; a raised conversion error
aborts the whole comprehension. -/
def fallbackFilter : List Phone → Except PyExc (List Phone)
  | [] => .ok []
  | p :: ps =>
    match fallbackOk p with
    | .error e => .error e
    | .ok true =>
      match fallbackFilter ps with
      | .error e => .error e
      | .ok l => .ok (p :: l)
    | .ok false => fallbackFilter ps

/-- The pure truth value of the fallback test on one record (false when the
test raises; `fallbackFilter` never selects such a record because it aborts). -/
def predFB (p : Phone) : Bool :=
  match fallbackOk p with
  | .ok b => b
  | .error _ => false

/-- A pure characterization of the fallback test: every one of the four
ratings (a missing one read as `0`) converts and lies in `[3.5, 4.5]`. -/
def ratingInRange (p : Phone) (k : FeatKey) : Bool :=
  match pyFloat ((getRating p k).getD (Val.num 0)) with
  | .ok q => decide ((3.5 : ℚ) ≤ q) && decide (q ≤ (4.5 : ℚ))
  | .error _ => false

/-- Predicate `fallbackInRange p`: all four ratings of `p` are in-range. -/
def fallbackInRange (p : Phone) : Bool :=
  fbKeys.all (ratingInRange p)

/-- One iteration of the inner priority loop (lines 113-126): the `if/elif`
chain on the feature name, `float(...) * weight` with `weight = 5 - rank`,
an unmatched feature adding nothing. -/
def prioStep (p : Phone) (pr : Priority) : Except PyExc ℚ :=
  if pr.feature = "brand" then
    (pyFloatIdx p .brandK).bind fun q => .ok (q * ((5 - pr.rank : ℤ) : ℚ))
  else if pr.feature = "processor" then
    (pyFloatIdx p .procK).bind fun q => .ok (q * ((5 - pr.rank : ℤ) : ℚ))
  else if pr.feature = "battery" then
    (pyFloatIdx p .battK).bind fun q => .ok (q * ((5 - pr.rank : ℤ) : ℚ))
  else if pr.feature = "camera" then
    (pyFloatIdx p .camK).bind fun q => .ok (q * ((5 - pr.rank : ℤ) : ℚ))
  else
    .ok 0

/-- The accumulation `score += ...` over the priority list, aborting at the
first raised error. -/
def scoreLoop (p : Phone) : ℚ → List Priority → Except PyExc ℚ
  | acc, [] => .ok acc
  | acc, pr :: rest =>
    match prioStep p pr with
    | .error e => .error e
    | .ok d => scoreLoop p (acc + d) rest

/-- The `score` for one phone, starting from `score = 0.0` (line 112). -/
def scorePhone (prios : List Priority) (p : Phone) : Except PyExc ℚ :=
  scoreLoop p 0 prios

/-- The outer scoring loop of lines 111-127 over the candidate list: each
phone's `Total_Score` is assigned `score / 16`; a raised error stops the loop,
leaving the failing phone and the ones after it unassigned.  Returns the
candidate list as mutated so far and the error, if one was raised. -/
def scoreAll (prios : List Priority) : List Phone → List Phone × Option PyExc
  | [] => ([], none)
  | p :: ps =>
    match scorePhone prios p with
    | .error e => (p :: ps, some e)
    | .ok s =>
      match scoreAll prios ps with
      | (l, e) => ({ p with totalScore := s / 16 } :: l, e)

/-- Stable insertion for a descending sort on `Total_Score`: the inserted
record precedes exactly the strictly lower-scored ones, so records inserted
earlier in the original order stay ahead of equal-scored later ones. -/
def insertDesc (p : Phone) : List Phone → List Phone
  | [] => [p]
  | q :: qs =>
    if q.totalScore ≤ p.totalScore then p :: q :: qs else q :: insertDesc p qs

/-- Python `sorted(filtered_phones, key=lambda x: x["Total_Score"], reverse=True)`:
Python's sort is stable, and with `reverse=True` equal keys still keep their
original order; `sortDesc` is the (unique) stable descending sort. -/
def sortDesc : List Phone → List Phone
  | [] => []
  | p :: ps => insertDesc p (sortDesc ps)

/-- Python's `phone in filtered_phones`: membership by structural equality. -/
def pyIn (p : Phone) (l : List Phone) : Bool :=
  l.any (fun q => decide (q = p))

/-- Formatting of one record (lines 135-144): the `Budget` display field is
the record's own `Category` when the record is in `filtered_phones` and the
first filtered record's `Category` is truthy (a non-empty string), otherwise
the literal `"Mid-Range (Fallback)"`; the four ratings are re-read with
`float(phone[...])`, whose failure propagates to the outer handler. -/
def fmtPhone (flist : List Phone) (first : Phone) (p : Phone) :
    Except PyExc FmtPhone :=
  (pyFloatIdx p .brandK).bind fun br =>
  (pyFloatIdx p .procK).bind fun pro =>
  (pyFloatIdx p .battK).bind fun ba =>
  (pyFloatIdx p .camK).bind fun ca =>
  .ok { Brand := p.brand
        Model := p.model
        Budget :=
          if pyIn p flist && !(first.category == "") then p.category
          else "Mid-Range (Fallback)"
        Brand_Rating := br
        Processor_Rating := pro
        Battery_Rating := ba
        Camera_Rating := ca
        Total_Score := p.totalScore }

/-- A left-to-right effectful map, aborting at the first raised error: the
list comprehension of lines 134-146. -/
def exMapM (f : Phone → Except PyExc FmtPhone) :
    List Phone → Except PyExc (List FmtPhone)
  | [] => .ok []
  | p :: ps =>
    match f p with
    | .error e => .error e
    | .ok b =>
      match exMapM f ps with
      | .error e => .error e
      | .ok bs => .ok (b :: bs)

/-- Formatting of the whole batch: `filtered_phones[0]` exists whenever this
runs (the empty-candidate case returned earlier), so `headD` never falls back
to its default. -/
def formatAll (upd : List Phone) (top : List Phone) : Except PyExc (List FmtPhone) :=
  exMapM (fmtPhone upd (upd.headD default)) top

/-- The candidate selection of lines 80-105: the primary category filter,
replaced by the fallback filter when it selects nothing. -/
def candidatesE (cat : List Phone) (b : String) : Except PyExc (List Phone) :=
  if (cat.filter (catMatchB b)).isEmpty then fallbackFilter cat
  else .ok (cat.filter (catMatchB b))

/-- The predicate that selected the candidate set actually used, needed to
locate which catalog positions the candidate list aliases. -/
def activePred (cat : List Phone) (b : String) : Phone → Bool :=
  if (cat.filter (catMatchB b)).isEmpty then predFB else catMatchB b

/-- Writes the (partially) mutated candidate list back into the catalog
positions it aliases: the `k`-th record satisfying `pred` is the `k`-th
element of `filtered_phones`, mutated in place by the scoring loop. -/
def patch (pred : Phone → Bool) : List Phone → List Phone → List Phone
  | [], _ => []
  | p :: ps, upd =>
    if pred p then upd.headD p :: patch pred ps upd.tail
    else p :: patch pred ps upd

/-- The whole `recommend` handler (lines 75-154) over a given catalog state:
returns the response (or raised error) together with the catalog as left
behind by the call's in-place `Total_Score` assignments. -/
def recommendFull (cat : List Phone) (b : String) (prios : List Priority) :
    Except PyErr Resp × List Phone :=
  match candidatesE cat b with
  | .error e => (.error (.recommendationFailed e), cat)
  | .ok cand =>
    if cand.isEmpty then (.ok ⟨0, []⟩, cat)
    else
      match scoreAll prios cand with
      | (upd, some e) => (.error (.invalidData e), patch (activePred cat b) cat upd)
      | (upd, none) =>
        match formatAll upd ((sortDesc upd).take 3) with
        | .error e => (.error (.recommendationFailed e), patch (activePred cat b) cat upd)
        | .ok results => (.ok ⟨results.length, results⟩, patch (activePred cat b) cat upd)

/-- The response of `recommend`. -/
def recommend (cat : List Phone) (b : String) (prios : List Priority) :
    Except PyErr Resp :=
  (recommendFull cat b prios).1

/-- The shared catalog as it stands after a `recommend` call. -/
def catalogAfter (cat : List Phone) (b : String) (prios : List Priority) :
    List Phone :=
  (recommendFull cat b prios).2

/-- The feature-name-to-rating-column mapping of the `if/elif` chain. -/
def featureField (f : String) : Option FeatKey :=
  if f = "brand" then some .brandK
  else if f = "processor" then some .procK
  else if f = "battery" then some .battK
  else if f = "camera" then some .camK
  else none

/-- The scoring formula as the specification words it: an unrecognized
feature contributes zero, a recognized one contributes its rating times the
weight `5 - rank`. -/
def specContribution (rate : FeatKey → ℚ) (pr : Priority) : ℚ :=
  match featureField pr.feature with
  | some k => rate k * ((5 - pr.rank : ℤ) : ℚ)
  | none => 0

/-- The specification's score: the sum of the contributions of the priority
list, in order, repetitions included. -/
def specScore (rate : FeatKey → ℚ) (prios : List Priority) : ℚ :=
  (prios.map (specContribution rate)).sum

/-- Equality of records up to the mutable `Total_Score` field. -/
def pes (p q : Phone) : Prop :=
  p.brand = q.brand ∧ p.model = q.model ∧ p.category = q.category ∧
  p.brandRating = q.brandRating ∧ p.processorRating = q.processorRating ∧
  p.batteryRating = q.batteryRating ∧ p.cameraRating = q.cameraRating

/-- The outcomes of two runs of an effectful filter over `pes`-related lists:
same error, or `pes`-related survivor lists. -/
def exRel (r₁ r₂ : Except PyExc (List Phone)) : Prop :=
  (∃ e, r₁ = .error e ∧ r₂ = .error e) ∨
    ∃ m m', r₁ = .ok m ∧ r₂ = .ok m' ∧ List.Forall₂ pes m m'

/-! ### Concrete catalog data for witnesses and counterexamples -/

/-- A loader-shaped record: three-phone catalog, best ratings first. -/
def wP1 : Phone :=
  ⟨"A", "M1", "Budget", some (.num 5), some (.num 4), some (.num 5), some (.num 4), 0⟩

def wP2 : Phone :=
  ⟨"B", "M2", "Budget ", some (.num 4), some (.num 4), some (.num 4), some (.num 4), 0⟩

def wP3 : Phone :=
  ⟨"C", "M3", "premium", some (.num 4), some (.num 4), some (.num 4), some (.num 4), 0⟩

def wCat : List Phone := [wP1, wP2, wP3]

/-- The spec's worked example: battery first, camera second. -/
def wPrios : List Priority := [⟨"battery", 1⟩, ⟨"camera", 2⟩]

/-- The candidate set the primary filter selects from `wCat` for `"budget"`. -/
def wCand : List Phone := [wP1, wP2]

/-- The candidates after the scoring loop assigns `Total_Score`. -/
def wUpd : List Phone :=
  [{ wP1 with totalScore := 2 }, { wP2 with totalScore := 7 / 4 }]

/-- The response of `recommend wCat "budget" wPrios`. -/
def wResp : Resp :=
  ⟨2, [⟨"A", "M1", "Budget", 5, 4, 5, 4, 2⟩, ⟨"B", "M2", "Budget ", 4, 4, 4, 4, 7 / 4⟩]⟩

/-- The per-column rating values of `wP1`, for the scoring-formula claim. -/
def wRate : FeatKey → ℚ
  | .battK => 5
  | .camK => 4
  | _ => 0

/-- Four candidates in category `"mid"`; the last one carries a rating string
CPython cannot convert (`float("NA")` raises `ValueError`). -/
def c5p1 : Phone :=
  ⟨"A", "M1", "mid", some (.num 5), some (.num 4), some (.num 4), some (.num 4), 0⟩

def c5p2 : Phone :=
  ⟨"B", "M2", "mid", some (.num 4), some (.num 4), some (.num 4), some (.num 4), 0⟩

def c5p3 : Phone :=
  ⟨"C", "M3", "mid", some (.num 3), some (.num 4), some (.num 4), some (.num 4), 0⟩

def c5p4 : Phone :=
  ⟨"D", "M4", "mid", some (.num 2), some (.num 4), some (.num 4), some (.str "NA" none), 0⟩

def c5cat : List Phone := [c5p1, c5p2, c5p3, c5p4]

def c5prios : List Priority := [⟨"brand", 1⟩]

/-- What `recommend c5cat "mid" c5prios` returns: the bad record is ranked
fourth and never consulted, so the call succeeds. -/
def c5resp : Resp :=
  ⟨3, [⟨"A", "M1", "mid", 5, 4, 4, 4, 5 / 4⟩,
       ⟨"B", "M2", "mid", 4, 4, 4, 4, 1⟩,
       ⟨"C", "M3", "mid", 3, 4, 4, 4, 3 / 4⟩]⟩

/-- A record lacking its camera-rating key. -/
def c10p : Phone :=
  ⟨"X", "MX", "mid", some (.num 4), some (.num 4), some (.num 4), none, 0⟩

/-! ### Lemmas about the stable descending sort -/

theorem insertDesc_mem (p x : Phone) (l : List Phone) :
    x ∈ insertDesc p l ↔ x = p ∨ x ∈ l := by
  induction l with
  | nil => simp [insertDesc]
  | cons q qs ih =>
    simp only [insertDesc]
    split
    · simp [List.mem_cons]
    · simp only [List.mem_cons, ih]
      tauto

theorem sortDesc_mem (x : Phone) (l : List Phone) :
    x ∈ sortDesc l ↔ x ∈ l := by
  induction l with
  | nil => simp [sortDesc]
  | cons q qs ih =>
    simp only [sortDesc, insertDesc_mem, List.mem_cons, ih]

theorem insertDesc_length (p : Phone) (l : List Phone) :
    (insertDesc p l).length = l.length + 1 := by
  induction l with
  | nil => simp [insertDesc]
  | cons q qs ih =>
    simp only [insertDesc]
    split <;> simp [ih]

theorem sortDesc_length (l : List Phone) :
    (sortDesc l).length = l.length := by
  induction l with
  | nil => rfl
  | cons q qs ih => simp [sortDesc, insertDesc_length, ih]

theorem insertDesc_pairwise (p : Phone) (l : List Phone)
    (h : List.Pairwise (fun a b => b.totalScore ≤ a.totalScore) l) :
    List.Pairwise (fun a b => b.totalScore ≤ a.totalScore) (insertDesc p l) := by
  induction l with
  | nil => simp [insertDesc]
  | cons q qs ih =>
    rw [List.pairwise_cons] at h
    simp only [insertDesc]
    split
    · rename_i hle
      refine List.Pairwise.cons ?_ (List.Pairwise.cons h.1 h.2)
      intro x hx
      rcases List.mem_cons.mp hx with rfl | hx
      · exact hle
      · exact le_trans (h.1 x hx) hle
    · rename_i hnle
      refine List.Pairwise.cons ?_ (ih h.2)
      intro x hx
      rcases (insertDesc_mem p x qs).mp hx with rfl | hx
      · exact le_of_lt (lt_of_not_le hnle)
      · exact h.1 x hx

/-- The sort is descending on `Total_Score`. -/
theorem sortDesc_pairwise (l : List Phone) :
    List.Pairwise (fun a b => b.totalScore ≤ a.totalScore) (sortDesc l) := by
  induction l with
  | nil => exact List.Pairwise.nil
  | cons q qs ih => exact insertDesc_pairwise q (sortDesc qs) ih

theorem insertDesc_filter (p : Phone) (l : List Phone) (s : ℚ) :
    (insertDesc p l).filter (fun x => decide (x.totalScore = s)) =
      if p.totalScore = s then
        p :: l.filter (fun x => decide (x.totalScore = s))
      else l.filter (fun x => decide (x.totalScore = s)) := by
  induction l with
  | nil =>
    by_cases h1 : p.totalScore = s <;> simp [insertDesc, List.filter, h1]
  | cons q qs ih =>
    simp only [insertDesc]
    split
    · rename_i hle
      by_cases h1 : p.totalScore = s <;> simp [List.filter_cons, h1]
    · rename_i hnle
      by_cases h1 : p.totalScore = s <;> by_cases h2 : q.totalScore = s
      · exact absurd (le_of_eq (h2.trans h1.symm)) hnle
      · simp [List.filter_cons, h1, h2, ih]
      · simp [List.filter_cons, h1, h2, ih]
      · simp [List.filter_cons, h1, h2, ih]

/-- Stability of the sort: for every score value, the records carrying that
score appear in the sorted list exactly as they appear in the input list. -/
theorem sortDesc_filter (l : List Phone) (s : ℚ) :
    (sortDesc l).filter (fun x => decide (x.totalScore = s)) =
      l.filter (fun x => decide (x.totalScore = s)) := by
  induction l with
  | nil => rfl
  | cons q qs ih =>
    simp only [sortDesc, insertDesc_filter, ih]
    by_cases h1 : q.totalScore = s <;> simp [List.filter_cons, h1]

/-! ### Lemmas about the effectful comprehension and Python membership -/

theorem exMapM_ok_forall (f : Phone → Except PyExc FmtPhone)
    (l : List Phone) (r : List FmtPhone) (h : exMapM f l = .ok r) :
    List.Forall₂ (fun a b => f a = .ok b) l r := by
  induction l generalizing r with
  | nil =>
    simp only [exMapM, Except.ok.injEq] at h
    subst h
    exact List.Forall₂.nil
  | cons a as ih =>
    rcases hfa : f a with e | b
    · simp [exMapM, hfa] at h
    · rcases hrest : exMapM f as with e2 | bs
      · simp [exMapM, hfa, hrest] at h
      · simp only [exMapM, hfa, hrest, Except.ok.injEq] at h
        subst h
        exact List.Forall₂.cons hfa (ih bs hrest)

theorem pyIn_iff (p : Phone) (l : List Phone) : pyIn p l = true ↔ p ∈ l := by
  simp only [pyIn, List.any_eq_true, decide_eq_true_eq]
  constructor
  · rintro ⟨x, hx, rfl⟩
    exact hx
  · intro hp
    exact ⟨p, hp, rfl⟩

/-! ### Lemmas about the scoring loop -/

theorem scoreAll_fst_length (prios : List Priority) (l : List Phone) :
    ((scoreAll prios l).1).length = l.length := by
  induction l with
  | nil => rfl
  | cons p ps ih =>
    simp only [scoreAll]
    rcases scorePhone prios p with e | s
    · rfl
    · simpa [scoreAll] using ih

theorem scoreAll_none_forall (prios : List Priority) (l upd : List Phone)
    (h : scoreAll prios l = (upd, none)) :
    List.Forall₂
      (fun c u => ∃ s, scorePhone prios c = .ok s ∧ u = { c with totalScore := s / 16 })
      l upd := by
  induction l generalizing upd with
  | nil =>
    simp only [scoreAll, Prod.mk.injEq] at h
    rw [← h.1]
    exact List.Forall₂.nil
  | cons p ps ih =>
    rcases hsp : scorePhone prios p with e | s
    · simp [scoreAll, hsp] at h
    · rcases hrest : scoreAll prios ps with ⟨l2, e2⟩
      simp only [scoreAll, hsp, hrest, Prod.mk.injEq] at h
      rcases h with ⟨h1, h2⟩
      subst h2
      rw [← h1]
      exact List.Forall₂.cons ⟨s, hsp, rfl⟩ (ih l2 hrest)

theorem scoreAll_error_of_mem (prios : List Priority) (l : List Phone)
    (p : Phone) (e : PyExc) (hp : p ∈ l) (he : scorePhone prios p = .error e) :
    ∃ e2, (scoreAll prios l).2 = some e2 := by
  induction l with
  | nil => cases hp
  | cons q qs ih =>
    rcases hsq : scorePhone prios q with e3 | s
    · exact ⟨e3, by simp [scoreAll, hsq]⟩
    · rcases List.mem_cons.mp hp with rfl | hp2
      · rw [hsq] at he
        cases he
      · rcases hrest : scoreAll prios qs with ⟨l2, e4⟩
        rcases ih hp2 with ⟨e5, h5⟩
        rw [hrest] at h5
        exact ⟨e5, by simp only [scoreAll, hsq, hrest]; exact h5⟩

theorem scoreLoop_error_of_mem (p : Phone) (prios : List Priority)
    (pr : Priority) (e : PyExc) (hpr : pr ∈ prios) (he : prioStep p pr = .error e) :
    ∀ a, ∃ e2, scoreLoop p a prios = .error e2 := by
  induction prios with
  | nil => cases hpr
  | cons q qs ih =>
    intro a
    rcases hq : prioStep p q with e3 | d
    · exact ⟨e3, by simp [scoreLoop, hq]⟩
    · rcases List.mem_cons.mp hpr with rfl | hpr2
      · rw [hq] at he
        cases he
      · rcases ih hpr2 (a + d) with ⟨e4, h4⟩
        exact ⟨e4, by simp only [scoreLoop, hq]; exact h4⟩

/-! ### The fallback filter characterized -/

theorem fallbackCheck_cases (p : Phone) (ks : List FeatKey) :
    fallbackCheck p ks = .ok (ks.all (ratingInRange p)) ∨
      ((∃ e, fallbackCheck p ks = .error e) ∧ ks.all (ratingInRange p) = false) := by
  induction ks with
  | nil => left; rfl
  | cons k ks ih =>
    rcases hf : pyFloat ((getRating p k).getD (Val.num 0)) with e | q
    · right
      refine ⟨⟨e, by simp [fallbackCheck, hf]⟩, ?_⟩
      simp [List.all_cons, ratingInRange, hf]
    · by_cases hin : (3.5 : ℚ) ≤ q ∧ q ≤ (4.5 : ℚ)
      · have hk : ratingInRange p k = true := by
          simp [ratingInRange, hf, hin.1, hin.2]
        rcases ih with h | ⟨⟨e2, h2⟩, h3⟩
        · left
          simp [fallbackCheck, hf, hin, List.all_cons, hk, h]
        · right
          refine ⟨⟨e2, by simp [fallbackCheck, hf, hin, h2]⟩, ?_⟩
          simp [List.all_cons, h3]
      · have hk : ratingInRange p k = false := by
          rcases not_and_or.mp hin with h | h <;> simp [ratingInRange, hf, h]
        left
        simp [fallbackCheck, hf, hin, List.all_cons, hk]

theorem fallbackOk_ok (p : Phone) (b : Bool) (h : fallbackOk p = .ok b) :
    b = fallbackInRange p := by
  rcases fallbackCheck_cases p fbKeys with h2 | ⟨⟨e, h2⟩, _⟩
  · rw [fallbackOk, h2] at h
    exact (Except.ok.injEq _ _ ▸ h).symm ▸ rfl
  · rw [fallbackOk, h2] at h
    cases h

theorem predFB_eq_inRange (p : Phone) : predFB p = fallbackInRange p := by
  unfold predFB
  rcases fallbackCheck_cases p fbKeys with h2 | ⟨⟨e, h2⟩, h3⟩
  · rw [fallbackOk, h2]
    rfl
  · rw [fallbackOk, h2]
    simp [fallbackInRange, h3]

theorem fallbackFilter_ok (l m : List Phone) (h : fallbackFilter l = .ok m) :
    m = l.filter predFB := by
  induction l generalizing m with
  | nil =>
    simp only [fallbackFilter, Except.ok.injEq] at h
    simp [← h]
  | cons p ps ih =>
    rcases hok : fallbackOk p with e | bp
    · simp [fallbackFilter, hok] at h
    · have hpfb : predFB p = bp := by unfold predFB; rw [hok]
      cases bp with
      | true =>
        rcases hrest : fallbackFilter ps with e2 | l2
        · simp [fallbackFilter, hok, hrest] at h
        · simp only [fallbackFilter, hok, hrest, Except.ok.injEq] at h
          rw [← h, List.filter_cons, hpfb]
          simp [ih l2 hrest]
      | false =>
        simp only [fallbackFilter, hok] at h
        rw [List.filter_cons, hpfb]
        simp [ih m h]

theorem candidatesE_ok_filter (cat : List Phone) (b : String) (cand : List Phone)
    (h : candidatesE cat b = .ok cand) :
    cand = cat.filter (activePred cat b) := by
  unfold candidatesE at h
  unfold activePred
  by_cases he : (cat.filter (catMatchB b)).isEmpty
  · rw [if_pos he] at h
    rw [if_pos he]
    exact fallbackFilter_ok cat cand h
  · rw [if_neg he] at h
    rw [if_neg he]
    exact (Except.ok.injEq _ _ ▸ h).symm

/-! ### The scoring formula -/

theorem prioStep_eq (p : Phone) (pr : Priority) :
    prioStep p pr =
      match featureField pr.feature with
      | some k => (pyFloatIdx p k).bind fun q => .ok (q * ((5 - pr.rank : ℤ) : ℚ))
      | none => .ok 0 := by
  unfold prioStep featureField
  split_ifs <;> rfl

theorem scoreLoop_spec (p : Phone) (rate : FeatKey → ℚ) (prios : List Priority)
    (h : ∀ pr ∈ prios, ∀ k, featureField pr.feature = some k →
      pyFloatIdx p k = .ok (rate k)) :
    ∀ a, scoreLoop p a prios = .ok (a + specScore rate prios) := by
  induction prios with
  | nil =>
    intro a
    simp [scoreLoop, specScore]
  | cons pr rest ih =>
    intro a
    have hstep : prioStep p pr = .ok (specContribution rate pr) := by
      rw [prioStep_eq]
      rcases hff : featureField pr.feature with _ | k
      · simp [specContribution, hff]
      · have h2 := h pr (List.mem_cons_self pr rest) k hff
        simp [specContribution, hff, h2, Except.bind]
    simp only [scoreLoop, hstep]
    rw [ih (fun pr2 h1 k h2 => h pr2 (List.mem_cons_of_mem _ h1) k h2) (a + specContribution rate pr)]
    have : a + specContribution rate pr + specScore rate rest =
        a + specScore rate (pr :: rest) := by
      simp [specScore, List.map_cons, List.sum_cons]
      ring
    rw [this]

theorem scorePhone_spec (p : Phone) (rate : FeatKey → ℚ) (prios : List Priority)
    (h : ∀ pr ∈ prios, ∀ k, featureField pr.feature = some k →
      pyFloatIdx p k = .ok (rate k)) :
    scorePhone prios p = .ok (specScore rate prios) := by
  rw [scorePhone, scoreLoop_spec p rate prios h 0, zero_add]

/-! ### Formatting -/

theorem fmtPhone_ok (flist : List Phone) (first p : Phone) (f : FmtPhone)
    (h : fmtPhone flist first p = .ok f) :
    f.Brand = p.brand ∧ f.Model = p.model ∧ f.Total_Score = p.totalScore ∧
      f.Budget = (if pyIn p flist && !(first.category == "") then p.category
        else "Mid-Range (Fallback)") := by
  unfold fmtPhone at h
  rcases h1 : pyFloatIdx p .brandK with e | br <;> rw [h1] at h
  · cases h
  rcases h2 : pyFloatIdx p .procK with e | pro <;> rw [h2] at h
  · cases h
  rcases h3 : pyFloatIdx p .battK with e | ba <;> rw [h3] at h
  · cases h
  rcases h4 : pyFloatIdx p .camK with e | ca <;> rw [h4] at h
  · cases h
  simp only [Except.bind, Except.ok.injEq] at h
  subst h
  exact ⟨rfl, rfl, rfl, rfl⟩

/-! ### The shape of a successful call -/

theorem recommend_ok_cases (cat : List Phone) (b : String) (prios : List Priority)
    (r : Resp) (h : recommend cat b prios = .ok r) :
    (∃ cand, candidatesE cat b = .ok cand ∧ cand = [] ∧ r = ⟨0, []⟩) ∨
      (∃ cand upd res, candidatesE cat b = .ok cand ∧ cand ≠ [] ∧
        scoreAll prios cand = (upd, none) ∧
        formatAll upd ((sortDesc upd).take 3) = .ok res ∧ r = ⟨res.length, res⟩) := by
  unfold recommend recommendFull at h
  rcases hc : candidatesE cat b with e | cand <;> simp only [hc] at h
  · cases h
  · by_cases hne : cand.isEmpty
    · simp only [hne, if_true, Except.ok.injEq] at h
      left
      exact ⟨cand, rfl, List.isEmpty_iff.mp hne, h.symm⟩
    · simp only [Bool.not_eq_true] at hne
      simp only [hne, Bool.false_eq_true, if_false] at h
      rcases hs : scoreAll prios cand with ⟨upd, eo⟩
      simp only [hs] at h
      cases eo with
      | some e => cases h
      | none =>
        rcases hf : formatAll upd ((sortDesc upd).take 3) with e2 | res <;>
          simp only [hf, Except.ok.injEq] at h
        · cases h
        · right
          refine ⟨cand, upd, res, rfl, ?_, hs, hf, h.symm⟩
          intro hnil
          rw [hnil] at hne
          cases hne

/-! ### Mutation touches only `Total_Score` -/

theorem pes_refl (p : Phone) : pes p p :=
  ⟨rfl, rfl, rfl, rfl, rfl, rfl, rfl⟩

theorem forall2_pes_refl (l : List Phone) : List.Forall₂ pes l l := by
  induction l with
  | nil => exact .nil
  | cons p ps ih => exact .cons (pes_refl p) ih

theorem pes_update (p : Phone) (s : ℚ) : pes p { p with totalScore := s } :=
  ⟨rfl, rfl, rfl, rfl, rfl, rfl, rfl⟩

theorem pes_getRating (p q : Phone) (h : pes p q) (k : FeatKey) :
    getRating p k = getRating q k := by
  obtain ⟨h1, h2, h3, h4, h5, h6, h7⟩ := h
  cases k <;> assumption

theorem pes_update_eq (p q : Phone) (h : pes p q) (s : ℚ) :
    ({ p with totalScore := s } : Phone) = { q with totalScore := s } := by
  obtain ⟨h1, h2, h3, h4, h5, h6, h7⟩ := h
  cases p
  cases q
  simp_all

theorem pes_pyFloatIdx (p q : Phone) (h : pes p q) (k : FeatKey) :
    pyFloatIdx p k = pyFloatIdx q k := by
  unfold pyFloatIdx getItem
  rw [pes_getRating p q h k]

theorem pes_catMatchB (b : String) (p q : Phone) (h : pes p q) :
    catMatchB b p = catMatchB b q := by
  unfold catMatchB
  rw [h.2.2.1]

theorem pes_fallbackOk (p q : Phone) (h : pes p q) :
    fallbackOk p = fallbackOk q := by
  unfold fallbackOk
  generalize fbKeys = ks
  induction ks with
  | nil => rfl
  | cons k ks ih =>
    unfold fallbackCheck
    rw [pes_getRating p q h k, ih]

theorem pes_prioStep (p q : Phone) (h : pes p q) (pr : Priority) :
    prioStep p pr = prioStep q pr := by
  unfold prioStep
  rw [pes_pyFloatIdx p q h .brandK, pes_pyFloatIdx p q h .procK,
    pes_pyFloatIdx p q h .battK, pes_pyFloatIdx p q h .camK]

theorem pes_scoreLoop (p q : Phone) (h : pes p q) (prios : List Priority) :
    ∀ a, scoreLoop p a prios = scoreLoop q a prios := by
  induction prios with
  | nil => intro a; rfl
  | cons pr rest ih =>
    intro a
    simp only [scoreLoop, pes_prioStep p q h pr]
    rcases hq : prioStep q pr with e | d <;> simp only [hq]
    exact ih (a + d)

theorem pes_scorePhone (p q : Phone) (h : pes p q) (prios : List Priority) :
    scorePhone prios p = scorePhone prios q :=
  pes_scoreLoop p q h prios 0

theorem forall2_isEmpty {R : Phone → Phone → Prop} {l l' : List Phone}
    (h : List.Forall₂ R l l') : l.isEmpty = l'.isEmpty := by
  cases h <;> rfl

theorem forall2_mem_left {α β : Type} {R : α → β → Prop} {l : List α} {l' : List β}
    (h : List.Forall₂ R l l') {p : α} (hp : p ∈ l) : ∃ u ∈ l', R p u := by
  induction h with
  | nil => cases hp
  | cons hr hrest ih =>
    rcases List.mem_cons.mp hp with rfl | hp2
    · exact ⟨_, List.mem_cons_self _ _, hr⟩
    · rcases ih hp2 with ⟨u, hu, hru⟩
      exact ⟨u, List.mem_cons_of_mem _ hu, hru⟩

theorem forall2_mem_right {α β : Type} {R : α → β → Prop} {l : List α} {l' : List β}
    (h : List.Forall₂ R l l') {u : β} (hu : u ∈ l') : ∃ p ∈ l, R p u := by
  induction h with
  | nil => cases hu
  | cons hr hrest ih =>
    rcases List.mem_cons.mp hu with rfl | hu2
    · exact ⟨_, List.mem_cons_self _ _, hr⟩
    · rcases ih hu2 with ⟨p, hp, hrp⟩
      exact ⟨p, List.mem_cons_of_mem _ hp, hrp⟩

theorem forall2_imp_mem {α β : Type} {R S : α → β → Prop} {l : List α} {l' : List β}
    (h : List.Forall₂ R l l') (himp : ∀ a ∈ l, ∀ b, R a b → S a b) :
    List.Forall₂ S l l' := by
  induction h with
  | nil => exact .nil
  | cons hr hrest ih =>
    exact .cons (himp _ (List.mem_cons_self _ _) _ hr)
      (ih fun a ha b hab => himp a (List.mem_cons_of_mem _ ha) b hab)

theorem forall2_map_eq {α β : Type} {f : α → ℚ} {g : β → ℚ} {l : List α} {l' : List β}
    (h : List.Forall₂ (fun a b => g b = f a) l l') : l'.map g = l.map f := by
  induction h with
  | nil => rfl
  | cons hr hrest ih => simp [List.map_cons, hr, ih]

theorem filter_forall2 {f : Phone → Bool} (hf : ∀ p q, pes p q → f p = f q) :
    ∀ {l l' : List Phone}, List.Forall₂ pes l l' →
      List.Forall₂ pes (l.filter f) (l'.filter f) := by
  intro l l' h
  induction h with
  | nil => exact .nil
  | cons hpq hrest ih =>
    rename_i p q l1 l2
    rw [List.filter_cons, List.filter_cons, hf p q hpq]
    cases hfq : f q
    · simpa using ih
    · simpa using List.Forall₂.cons hpq ih

theorem fallbackFilter_congr (l l' : List Phone) (h : List.Forall₂ pes l l') :
    exRel (fallbackFilter l) (fallbackFilter l') := by
  induction h with
  | nil => exact Or.inr ⟨[], [], rfl, rfl, .nil⟩
  | cons hpq hrest ih =>
    rename_i p q l1 l2
    simp only [fallbackFilter, pes_fallbackOk p q hpq]
    rcases hq : fallbackOk q with e | bq
    · exact Or.inl ⟨e, rfl, rfl⟩
    · cases bq
      · exact ih
      · rcases ih with ⟨e2, h1, h2⟩ | ⟨m, m', h1, h2, hf⟩
        · rw [h1, h2]
          exact Or.inl ⟨e2, rfl, rfl⟩
        · rw [h1, h2]
          exact Or.inr ⟨p :: m, q :: m', rfl, rfl, .cons hpq hf⟩

theorem candidatesE_congr (cat cat' : List Phone) (b : String)
    (h : List.Forall₂ pes cat cat') :
    exRel (candidatesE cat b) (candidatesE cat' b) := by
  unfold candidatesE
  have hfilter := filter_forall2 (fun p q hpq => pes_catMatchB b p q hpq) h
  rw [forall2_isEmpty hfilter]
  by_cases he : (cat'.filter (catMatchB b)).isEmpty
  · rw [if_pos he, if_pos he]
    exact fallbackFilter_congr cat cat' h
  · rw [if_neg he, if_neg he]
    exact Or.inr ⟨_, _, rfl, rfl, hfilter⟩

theorem scoreAll_congr (prios : List Priority) (l l' : List Phone)
    (h : List.Forall₂ pes l l') :
    (scoreAll prios l).2 = (scoreAll prios l').2 ∧
      ((scoreAll prios l).2 = none → (scoreAll prios l).1 = (scoreAll prios l').1) := by
  induction h with
  | nil => exact ⟨rfl, fun _ => rfl⟩
  | cons hpq hrest ih =>
    rename_i p q l1 l2
    simp only [scoreAll, pes_scorePhone p q hpq prios]
    rcases hq : scorePhone prios q with e | s
    · exact ⟨rfl, fun hc => by cases hc⟩
    · rcases hl1 : scoreAll prios l1 with ⟨u1, e1⟩
      rcases hl2 : scoreAll prios l2 with ⟨u2, e2⟩
      rw [hl1, hl2] at ih
      simp only [hq, hl1, hl2]
      exact ⟨ih.1, fun hnone => by
        rw [pes_update_eq p q hpq (s / 16)]
        exact congrArg (fun x => _ :: x) (ih.2 hnone)⟩

theorem recommend_congr (cat cat' : List Phone) (b : String) (prios : List Priority)
    (h : List.Forall₂ pes cat cat') :
    recommend cat b prios = recommend cat' b prios := by
  unfold recommend recommendFull
  rcases candidatesE_congr cat cat' b h with ⟨e, h1, h2⟩ | ⟨m, m', h1, h2, hf⟩
  · rw [h1, h2]
  · rw [h1, h2]
    dsimp only
    rw [← forall2_isEmpty hf]
    by_cases he : m.isEmpty
    · rw [if_pos he, if_pos he]
    · rw [if_neg he, if_neg he]
      obtain ⟨hsnd, hfst⟩ := scoreAll_congr prios m m' hf
      rcases hs1 : scoreAll prios m with ⟨u1, e1⟩
      rcases hs2 : scoreAll prios m' with ⟨u2, e2⟩
      rw [hs1, hs2] at hsnd hfst
      simp only at hsnd hfst
      subst hsnd
      cases e1 with
      | some e3 => rfl
      | none =>
        rw [hfst rfl]
        rcases hf2 : formatAll u2 ((sortDesc u2).take 3) with e4 | res <;>
          simp only [hf2]

theorem patch_pes (pred : Phone → Bool) :
    ∀ (cat upd : List Phone), List.Forall₂ pes (cat.filter pred) upd →
      List.Forall₂ pes cat (patch pred cat upd) := by
  intro cat
  induction cat with
  | nil => intro upd _; exact .nil
  | cons c cs ih =>
    intro upd h
    rw [List.filter_cons] at h
    cases hc : pred c
    · rw [hc] at h
      simp only [if_false, Bool.false_eq_true] at h
      simp only [patch, hc, Bool.false_eq_true, if_false]
      exact .cons (pes_refl c) (ih upd h)
    · rw [hc] at h
      simp only [if_true] at h
      cases h with
      | cons hcu hrest =>
        rename_i u us
        simp only [patch, hc, if_true]
        exact .cons hcu (ih us hrest)

theorem scoreAll_fst_pes (prios : List Priority) (l : List Phone) :
    List.Forall₂ pes l (scoreAll prios l).1 := by
  induction l with
  | nil => exact .nil
  | cons p ps ih =>
    simp only [scoreAll]
    rcases hs : scorePhone prios p with e | s
    · exact forall2_pes_refl (p :: ps)
    · rcases hr : scoreAll prios ps with ⟨u, e⟩
      rw [hr] at ih
      exact .cons (pes_update p (s / 16)) ih

theorem catalogAfter_pes (cat : List Phone) (b : String) (prios : List Priority) :
    List.Forall₂ pes cat (catalogAfter cat b prios) := by
  unfold catalogAfter recommendFull
  rcases hc : candidatesE cat b with e | cand
  · exact forall2_pes_refl cat
  · dsimp only
    by_cases he : cand.isEmpty
    · rw [if_pos he]
      exact forall2_pes_refl cat
    · rw [if_neg he]
      have hcf := candidatesE_ok_filter cat b cand hc
      rcases hs : scoreAll prios cand with ⟨u, eo⟩
      have hp : List.Forall₂ pes (cat.filter (activePred cat b)) u := by
        have h2 := scoreAll_fst_pes prios cand
        rw [hs] at h2
        rw [← hcf]
        exact h2
      have hpatch := patch_pes (activePred cat b) cat u hp
      cases eo with
      | some e2 => exact hpatch
      | none =>
        rcases hf2 : formatAll u ((sortDesc u).take 3) with e4 | res <;>
          simp only [hf2] <;> exact hpatch

/-! ### Further helper lemmas -/

theorem headD_of_head? (l : List Phone) (p0 d : Phone) (h : l.head? = some p0) :
    l.headD d = p0 := by
  cases l with
  | nil => cases h
  | cons a as =>
    simpa using h

theorem fallbackCheck_total (p : Phone)
    (hall : ∀ k, ∃ q, pyFloat ((getRating p k).getD (Val.num 0)) = .ok q) :
    ∀ ks, ∃ b, fallbackCheck p ks = .ok b := by
  intro ks
  induction ks with
  | nil => exact ⟨true, rfl⟩
  | cons k ks ih =>
    rcases hall k with ⟨q, hq⟩
    rcases ih with ⟨b, hb⟩
    by_cases hin : (3.5 : ℚ) ≤ q ∧ q ≤ (4.5 : ℚ)
    · exact ⟨b, by simp [fallbackCheck, hq, hin, hb]⟩
    · exact ⟨false, by simp [fallbackCheck, hq, hin]⟩

/-! ## The claims -/

/-- Claim C4, counterexample: the claim says `recommend` never mutates the
shared catalog's stored records, but a successful call on `wCat` overwrites
the stored `Total_Score` fields in place, so the catalog left behind differs
from the one passed in. -/
theorem C4_counterexample : catalogAfter wCat "budget" wPrios ≠ wCat := by
  with_unfolding_all decide

/-- Claim C4 (amended): the scoring loop does overwrite each surviving
candidate's stored `Total_Score` in place, but a later call's response is
exactly what it would have been on the pristine catalog — scores are
recomputed from the ratings and the request's own priorities alone, so the
earlier call's priorities cannot leak into the later call's results. -/
theorem C4_no_leakage (cat : List Phone) (b1 b2 : String)
    (p1 p2 : List Priority) :
    recommend (catalogAfter cat b1 p1) b2 p2 = recommend cat b2 p2 :=
  (recommend_congr cat (catalogAfter cat b1 p1) b2 p2 (catalogAfter_pes cat b1 p1)).symm

/-- Claim C8: when the primary category filter and the mid-range fallback
filter both select nothing, the call returns `{count: 0, results: []}` as a
normal result, not an error. -/
theorem C8_empty_result (cat : List Phone) (b : String) (prios : List Priority)
    (h1 : cat.filter (catMatchB b) = []) (h2 : fallbackFilter cat = .ok []) :
    recommend cat b prios = .ok ⟨0, []⟩ := by
  have hc : candidatesE cat b = .ok [] := by
    unfold candidatesE
    rw [h1]
    simpa using h2
  unfold recommend recommendFull
  simp only [hc]
  rfl

/-- Claim C8, witness: `wP1` is in category `Budget` (so budget `x` matches
nothing) and its brand rating 5 is outside `[3.5, 4.5]` (so the fallback also
selects nothing); the call succeeds with an empty result. -/
theorem C8_witness : recommend [wP1] "x" wPrios = .ok ⟨0, []⟩ :=
  C8_empty_result [wP1] "x" wPrios (by with_unfolding_all decide)
    (by with_unfolding_all decide)

/-- Claim C10: in the fallback filter, a record lacking one of the four
rating keys is read as rating `0` (no exception), is never selected by a
successful fallback pass, and — when the ratings that are present all
convert — the record's own check returns `false` rather than raising. -/
theorem C10_missing_rating (p : Phone) (k : FeatKey) (hk : getRating p k = none) :
    pyFloat ((getRating p k).getD (Val.num 0)) = .ok 0 ∧
      fallbackOk p ≠ .ok true ∧
      ((∀ k2, ∃ q, pyFloat ((getRating p k2).getD (Val.num 0)) = .ok q) →
        fallbackOk p = .ok false) ∧
      ∀ (l m : List Phone), fallbackFilter l = .ok m → p ∉ m := by
  have h35 : ¬ ((3.5 : ℚ) ≤ (0 : ℚ)) := by norm_num
  have hrk : ratingInRange p k = false := by
    simp [ratingInRange, hk, pyFloat, h35]
  have hkmem : k ∈ fbKeys := by cases k <;> simp [fbKeys]
  have hfir : fallbackInRange p = false := by
    cases hfi : fallbackInRange p
    · rfl
    · have hfi2 : fbKeys.all (ratingInRange p) = true := hfi
      have := List.all_eq_true.mp hfi2 k hkmem
      rw [hrk] at this
      cases this
  refine ⟨by rw [hk]; rfl, ?_, ?_, ?_⟩
  · intro hcontra
    have h2 := fallbackOk_ok p true hcontra
    rw [hfir] at h2
    cases h2
  · intro hall
    rcases fallbackCheck_total p hall fbKeys with ⟨b, hb⟩
    have hbeq := fallbackOk_ok p b hb
    rw [hfir] at hbeq
    rw [hbeq] at hb
    exact hb
  · intro l m hl hmem
    rw [fallbackFilter_ok l m hl] at hmem
    have h2 := (List.mem_filter.mp hmem).2
    rw [predFB_eq_inRange, hfir] at h2
    cases h2

/-- Claim C10, witness: `c10p` lacks its camera-rating key; it is read as 0,
excluded from the fallback set, and causes no failure. -/
theorem C10_witness :
    pyFloat ((getRating c10p .camK).getD (Val.num 0)) = .ok 0 ∧
      fallbackOk c10p ≠ .ok true ∧
      ((∀ k2, ∃ q, pyFloat ((getRating c10p k2).getD (Val.num 0)) = .ok q) →
        fallbackOk c10p = .ok false) ∧
      ∀ (l m : List Phone), fallbackFilter l = .ok m → c10p ∉ m :=
  C10_missing_rating c10p .camK (by with_unfolding_all decide)

/-- Claim C3: the mid-range fallback is consulted if and only if the primary
category filter selects nothing, and a fallback pass that completes selects
exactly the catalog records whose four ratings all lie in `[3.5, 4.5]`. -/
theorem C3_fallback_iff (cat : List Phone) (b : String) :
    (cat.filter (catMatchB b) ≠ [] →
      candidatesE cat b = .ok (cat.filter (catMatchB b))) ∧
    (cat.filter (catMatchB b) = [] →
      candidatesE cat b = fallbackFilter cat ∧
        ∀ l, fallbackFilter cat = .ok l → l = cat.filter fallbackInRange) := by
  constructor
  · intro hne
    unfold candidatesE
    have he : (cat.filter (catMatchB b)).isEmpty = false := by
      cases hfe : cat.filter (catMatchB b) with
      | nil => exact absurd hfe hne
      | cons a as => rfl
    rw [he]
    simp
  · intro hnil
    have he : (cat.filter (catMatchB b)).isEmpty = true := by rw [hnil]; rfl
    refine ⟨by unfold candidatesE; rw [he]; simp, ?_⟩
    intro l hl
    rw [fallbackFilter_ok cat l hl]
    have h2 : predFB = fallbackInRange := funext predFB_eq_inRange
    rw [h2]

/-- Claim C3, witness: no record of `wCat` matches budget `luxury`, so the
candidates come from the fallback, which keeps exactly the all-mid-range
records. -/
theorem C3_witness :
    candidatesE wCat "luxury" = fallbackFilter wCat ∧
      ∀ l, fallbackFilter wCat = .ok l → l = wCat.filter fallbackInRange :=
  (C3_fallback_iff wCat "luxury").2 (by with_unfolding_all decide)

/-- Claim C1: for every candidate surviving the filter (or fallback) step,
the scoring loop stores `Total_Score = (Σ over priorities of
rating·(5 - rank)) / 16`: a recognized feature reads the corresponding rating
column, an unrecognized feature contributes zero without error, and the
divisor is the fixed constant 16 whatever the number or repetition of the
priorities. -/
theorem C1_total_score_formula (cat : List Phone) (b : String)
    (prios : List Priority) (cand upd : List Phone) (p : Phone)
    (rate : FeatKey → ℚ)
    (hc : candidatesE cat b = .ok cand) (hp : p ∈ cand)
    (hs : scoreAll prios cand = (upd, none))
    (hrate : ∀ pr ∈ prios, ∀ k, featureField pr.feature = some k →
      pyFloatIdx p k = .ok (rate k)) :
    ({ p with totalScore := specScore rate prios / 16 } : Phone) ∈ upd := by
  have hfa := scoreAll_none_forall prios cand upd hs
  rcases forall2_mem_left hfa hp with ⟨u, hu, s, hsp, hueq⟩
  have hspec := scorePhone_spec p rate prios hrate
  rw [hspec] at hsp
  injection hsp with hsp2
  rw [hueq, ← hsp2] at hu
  exact hu

/-- Claim C1, witness: with priorities battery rank 1 and camera rank 2 and
ratings battery 5, camera 4, the stored score is (5·4 + 4·3)/16 = 2.0. -/
theorem C1_witness :
    ({ wP1 with totalScore := 2 } : Phone) ∈ wUpd ∧
      specScore wRate wPrios / 16 = 2 := by
  have h := C1_total_score_formula wCat "budget" wPrios wCand wUpd wP1 wRate
    (by with_unfolding_all decide) (by with_unfolding_all decide)
    (by with_unfolding_all decide) (by with_unfolding_all decide)
  have h2 : specScore wRate wPrios / 16 = 2 := by with_unfolding_all decide
  exact ⟨by rwa [h2] at h, h2⟩

/-- Claim C2: if at least one catalog record's normalized category equals the
normalized budget, every returned result is formatted from a catalog record
whose normalized category equals the normalized budget. -/
theorem C2_category_filter (cat : List Phone) (b : String) (prios : List Priority)
    (r : Resp) (hm : ∃ p ∈ cat, catMatchB b p = true)
    (hr : recommend cat b prios = .ok r) :
    ∀ f ∈ r.results, ∃ p ∈ cat, catMatchB b p = true ∧
      f.Brand = p.brand ∧ f.Model = p.model := by
  have hfne : (cat.filter (catMatchB b)).isEmpty = false := by
    rcases hm with ⟨p, hp, hmp⟩
    have hmem : p ∈ cat.filter (catMatchB b) := List.mem_filter.mpr ⟨hp, hmp⟩
    cases hfe : cat.filter (catMatchB b) with
    | nil => rw [hfe] at hmem; cases hmem
    | cons a as => rfl
  have hcand : candidatesE cat b = .ok (cat.filter (catMatchB b)) := by
    unfold candidatesE
    rw [hfne]
    simp
  rcases recommend_ok_cases cat b prios r hr with
    ⟨cand, hc2, hcnil, hr0⟩ | ⟨cand, upd, res, hc2, hcne, hs, hfm, hreq⟩
  · rw [hr0]
    intro f hf
    cases hf
  · rw [hcand] at hc2
    injection hc2 with hc2
    intro f hfmem
    rw [hreq] at hfmem
    have hforall := exMapM_ok_forall _ _ _ hfm
    rcases forall2_mem_right hforall hfmem with ⟨pp, hpp, hfmt⟩
    have hpp2 : pp ∈ upd := (sortDesc_mem pp upd).mp (List.take_subset _ _ hpp)
    have hsf := scoreAll_none_forall prios cand upd hs
    rcases forall2_mem_right hsf hpp2 with ⟨c0, hc0, s, hsps, hceq⟩
    have hc0f : c0 ∈ cat.filter (catMatchB b) := by rw [hc2]; exact hc0
    obtain ⟨hc0cat, hc0match⟩ := List.mem_filter.mp hc0f
    obtain ⟨hbrand, hmodel, hts, hbud⟩ := fmtPhone_ok _ _ _ _ hfmt
    refine ⟨c0, hc0cat, hc0match, ?_, ?_⟩
    · rw [hbrand, hceq]
    · rw [hmodel, hceq]

/-- Claim C2, witness: budget `budget` matches two records of `wCat`, and
the first returned result comes from a record in that category. -/
theorem C2_witness :
    ∃ p ∈ wCat, catMatchB "budget" p = true ∧
      (⟨"A", "M1", "Budget", 5, 4, 5, 4, 2⟩ : FmtPhone).Brand = p.brand ∧
      (⟨"A", "M1", "Budget", 5, 4, 5, 4, 2⟩ : FmtPhone).Model = p.model :=
  C2_category_filter wCat "budget" wPrios wResp (by with_unfolding_all decide)
    (by with_unfolding_all decide) ⟨"A", "M1", "Budget", 5, 4, 5, 4, 2⟩
    (by with_unfolding_all decide)

/-- Claim C9: a successful call returns `count` equal to the length of
`results`, at most 3 results, and no more results than surviving
candidates. -/
theorem C9_count_bounds (cat : List Phone) (b : String) (prios : List Priority)
    (r : Resp) (hr : recommend cat b prios = .ok r) :
    r.count = r.results.length ∧ r.results.length ≤ 3 ∧
      ∀ cand, candidatesE cat b = .ok cand → r.results.length ≤ cand.length := by
  rcases recommend_ok_cases cat b prios r hr with
    ⟨cand, _hc, hcnil, hr0⟩ | ⟨cand, upd, res, hc, hcne, hs, hfm, hreq⟩
  · rw [hr0]
    exact ⟨rfl, by simp, fun c hcc => by simp⟩
  · rw [hreq]
    have hlen : res.length = ((sortDesc upd).take 3).length :=
      (List.Forall₂.length_eq (exMapM_ok_forall _ _ _ hfm)).symm
    have hults : upd.length = cand.length := by
      have h2 := scoreAll_fst_length prios cand
      rw [hs] at h2
      exact h2
    refine ⟨rfl, ?_, ?_⟩
    · rw [hlen]
      simp [List.length_take]
    · intro cand2 hc2
      rw [hc] at hc2
      injection hc2 with hc2
      rw [hlen, ← hc2]
      calc ((sortDesc upd).take 3).length ≤ (sortDesc upd).length := by
            simp [List.length_take]
        _ = cand.length := by rw [sortDesc_length, hults]

/-- Claim C9, witness: the `wCat`/`budget` call returns 2 results from 2
candidates, with `count = 2`. -/
theorem C9_witness :
    wResp.count = wResp.results.length ∧ wResp.results.length ≤ 3 ∧
      ∀ cand, candidatesE wCat "budget" = .ok cand →
        wResp.results.length ≤ cand.length :=
  C9_count_bounds wCat "budget" wPrios wResp (by with_unfolding_all decide)

/-- Claim C5, counterexample: `c5p4` is a surviving candidate whose camera
rating is the string `NA`, which CPython cannot convert — yet the call
succeeds with three results, because that rating is neither a prioritized
feature nor re-read while formatting the top 3. The claim's "the entire
recommend call fails" is false as stated. -/
theorem C5_counterexample :
    c5p4 ∈ c5cat ∧ catMatchB "mid" c5p4 = true ∧
      pyFloatIdx c5p4 .camK = .error (.valueError "NA") ∧
      recommend c5cat "mid" c5prios = .ok c5resp := by
  with_unfolding_all decide

/-- Claim C5 (amended): a non-numeric (or missing) rating aborts the whole
call exactly when it is consulted: if any surviving candidate's rating for a
feature named in the priorities fails to convert, the whole request fails
with the `invalid data` HTTP 500 error and no partial results; a bad rating
that is never consulted does not fail the call, and the offending phone is
named only in the server log, not in the error detail. -/
theorem C5_consulted_rating_error (cat : List Phone) (b : String)
    (prios : List Priority) (cand : List Phone) (p : Phone) (pr : Priority)
    (e : PyExc) (hc : candidatesE cat b = .ok cand) (hp : p ∈ cand)
    (hpr : pr ∈ prios) (he : prioStep p pr = .error e) :
    ∃ e2, recommend cat b prios = .error (PyErr.invalidData e2) := by
  rcases scoreLoop_error_of_mem p prios pr e hpr he 0 with ⟨e2, h2⟩
  rcases scoreAll_error_of_mem prios cand p e2 hp h2 with ⟨e3, h3⟩
  have hne : cand.isEmpty = false := by
    cases cand with
    | nil => cases hp
    | cons a as => rfl
  unfold recommend recommendFull
  simp only [hc, hne, Bool.false_eq_true, if_false]
  rcases hsa : scoreAll prios cand with ⟨u, eo⟩
  rw [hsa] at h3
  dsimp only at h3
  subst h3
  simp only [hsa]
  exact ⟨e3, rfl⟩

/-- Claim C5, witness: when the unconvertible camera rating is prioritized,
the whole call fails with the `invalid data` error. -/
theorem C5_witness :
    ∃ e2, recommend c5cat "mid" [⟨"camera", 1⟩] = .error (PyErr.invalidData e2) :=
  C5_consulted_rating_error c5cat "mid" [⟨"camera", 1⟩] c5cat c5p4 ⟨"camera", 1⟩
    (PyExc.valueError "NA") (by with_unfolding_all decide)
    (by with_unfolding_all decide) (by with_unfolding_all decide)
    (by with_unfolding_all decide)

/-- Claim C6: the returned results are ordered by `Total_Score` descending,
and the sort is stable — for every score value, the scored candidates
carrying it appear in the sorted list exactly in their candidate-list (hence
catalog) order — with the results the formatted 3-prefix of that sort. -/
theorem C6_sorted_stable (cat : List Phone) (b : String) (prios : List Priority)
    (r : Resp) (cand upd : List Phone)
    (hc : candidatesE cat b = .ok cand)
    (hs : scoreAll prios cand = (upd, none))
    (hr : recommend cat b prios = .ok r) :
    List.Pairwise (fun f g => g.Total_Score ≤ f.Total_Score) r.results ∧
      (∀ s : ℚ, (sortDesc upd).filter (fun x => decide (x.totalScore = s)) =
        upd.filter (fun x => decide (x.totalScore = s))) ∧
      List.Forall₂
        (fun p f => f.Brand = p.brand ∧ f.Model = p.model ∧
          f.Total_Score = p.totalScore)
        ((sortDesc upd).take 3) r.results := by
  refine ⟨?_, fun s => sortDesc_filter upd s, ?_⟩ <;>
    rcases recommend_ok_cases cat b prios r hr with
      ⟨cand2, hc2, hcnil, hr0⟩ | ⟨cand2, upd2, res, hc2, hcne, hs2, hfm, hreq⟩
  · rw [hr0]
    exact List.Pairwise.nil
  · rw [hc2] at hc
    injection hc with hceq
    subst hceq
    rw [hs] at hs2
    injection hs2 with hu he2
    subst hu
    rw [hreq]
    have hforall := exMapM_ok_forall _ _ _ hfm
    have hsorted : List.Pairwise (fun a b => b.totalScore ≤ a.totalScore)
        ((sortDesc upd).take 3) :=
      List.Pairwise.sublist (List.take_sublist _ _) (sortDesc_pairwise upd)
    have hmap : res.map (fun f => f.Total_Score) =
        ((sortDesc upd).take 3).map (fun p => p.totalScore) :=
      forall2_map_eq (hforall.imp fun a f hab => (fmtPhone_ok _ _ _ _ hab).2.2.1)
    have hp2 : List.Pairwise (fun x y : ℚ => y ≤ x)
        (((sortDesc upd).take 3).map (fun p => p.totalScore)) :=
      List.pairwise_map.mpr hsorted
    have hp3 : List.Pairwise (fun x y : ℚ => y ≤ x)
        (res.map (fun f => f.Total_Score)) := by rw [hmap]; exact hp2
    exact List.pairwise_map.mp hp3
  · rw [hc2] at hc
    injection hc with hceq
    subst hceq
    rw [hcnil] at hs
    have hupd : upd = [] := by
      simp only [scoreAll, Prod.mk.injEq] at hs
      exact hs.1.symm
    rw [hr0, hupd]
    exact List.Forall₂.nil
  · rw [hc2] at hc
    injection hc with hceq
    subst hceq
    rw [hs] at hs2
    injection hs2 with hu he2
    subst hu
    rw [hreq]
    have hforall := exMapM_ok_forall _ _ _ hfm
    exact hforall.imp fun a f hab =>
      ⟨(fmtPhone_ok _ _ _ _ hab).1, (fmtPhone_ok _ _ _ _ hab).2.1,
        (fmtPhone_ok _ _ _ _ hab).2.2.1⟩

/-- Claim C6, witness: on the `wCat`/`budget` call, scores 2 and 7/4 come
back in descending order, the stable sort preserves candidate order, and the
results mirror the sorted prefix. -/
theorem C6_witness :
    List.Pairwise (fun f g => g.Total_Score ≤ f.Total_Score) wResp.results ∧
      (∀ s : ℚ, (sortDesc wUpd).filter (fun x => decide (x.totalScore = s)) =
        wUpd.filter (fun x => decide (x.totalScore = s))) ∧
      List.Forall₂
        (fun p f => f.Brand = p.brand ∧ f.Model = p.model ∧
          f.Total_Score = p.totalScore)
        ((sortDesc wUpd).take 3) wResp.results :=
  C6_sorted_stable wCat "budget" wPrios wResp wCand wUpd
    (by with_unfolding_all decide) (by with_unfolding_all decide)
    (by with_unfolding_all decide)

/-- Claim C7: each returned record's `Budget` field is the record's own
category, except that when the first surviving candidate's category is the
empty (falsy) string the literal `Mid-Range (Fallback)` label is used for
every record of the returned batch. -/
theorem C7_budget_label (cat : List Phone) (b : String) (prios : List Priority)
    (r : Resp) (cand upd : List Phone) (p0 : Phone)
    (hc : candidatesE cat b = .ok cand)
    (hs : scoreAll prios cand = (upd, none))
    (hr : recommend cat b prios = .ok r)
    (h0 : upd.head? = some p0) :
    (p0.category = "" → ∀ f ∈ r.results, f.Budget = "Mid-Range (Fallback)") ∧
      (p0.category ≠ "" →
        List.Forall₂ (fun p f => f.Budget = p.category)
          ((sortDesc upd).take 3) r.results) := by
  rcases recommend_ok_cases cat b prios r hr with
    ⟨cand2, hc2, hcnil, hr0⟩ | ⟨cand2, upd2, res, hc2, hcne, hs2, hfm, hreq⟩
  · rw [hc2] at hc
    injection hc with hceq
    subst hceq
    rw [hcnil] at hs
    have hupd : upd = [] := by
      simp only [scoreAll, Prod.mk.injEq] at hs
      exact hs.1.symm
    rw [hupd] at h0
    cases h0
  · rw [hc2] at hc
    injection hc with hceq
    subst hceq
    rw [hs] at hs2
    injection hs2 with hu he2
    subst hu
    have hfirst : upd.headD default = p0 := headD_of_head? upd p0 default h0
    have hforall := exMapM_ok_forall _ _ _ hfm
    constructor
    · intro hcat0 f hf
      rw [hreq] at hf
      rcases forall2_mem_right hforall hf with ⟨pp, hpp, hfmt⟩
      obtain ⟨h1, h2, h3, hbud⟩ := fmtPhone_ok _ _ _ _ hfmt
      rw [hfirst] at hbud
      rw [hbud]
      simp [hcat0]
    · intro hcat0
      rw [hreq]
      apply forall2_imp_mem hforall
      intro a ha f hab
      obtain ⟨h1, h2, h3, hbud⟩ := fmtPhone_ok _ _ _ _ hab
      have hain : pyIn a upd = true :=
        (pyIn_iff a upd).mpr ((sortDesc_mem a upd).mp (List.take_subset _ _ ha))
      rw [hfirst] at hbud
      rw [hbud, hain]
      simp [hcat0]

/-- Claim C7, witness: the first surviving candidate of the `wCat`/`budget`
call has (truthy) category `Budget`, so each result's `Budget` field is its
own record's category. -/
theorem C7_witness :
    (({ wP1 with totalScore := 2 } : Phone).category = "" →
      ∀ f ∈ wResp.results, f.Budget = "Mid-Range (Fallback)") ∧
      (({ wP1 with totalScore := 2 } : Phone).category ≠ "" →
        List.Forall₂ (fun p f => f.Budget = p.category)
          ((sortDesc wUpd).take 3) wResp.results) :=
  C7_budget_label wCat "budget" wPrios wResp wCand wUpd
    { wP1 with totalScore := 2 }
    (by with_unfolding_all decide) (by with_unfolding_all decide)
    (by with_unfolding_all decide) (by with_unfolding_all decide)

end PhoneFinder
